import Mathlib

/-!
Verification of the DeckTune (gymdeck3) control-loop core: a shallow
embedding of the fan safety override, fan curve evaluation, the fan
controller tick, the undervolt hysteresis filter, the fixed-step
interpolator, the actuator failure counter, and the undervolt strategies,
with theorems settling the specified properties.

Modelling conventions:
* Rust `u8`/`u32`/`usize` values are modelled as `Nat`, `i32` as `Int`.
  Rust `/` on `i32` truncates toward zero and is modelled by `Int.tdiv`.
* Rust `f32` quantities (loads, margins, curve parameters) are modelled as
  exact rationals `ℚ`; `f32::round` (round half away from zero) is modelled
  by `roundAwayFromZero`, and the `< f32::EPSILON` degeneracy test on a
  difference is modelled as an exact test against zero.
* Wall-clock-dependent state (the PWM smoother) is abstracted as an oracle
  function passed to the fan tick; the critical-temperature path bypasses it.
-/

namespace DeckTune

/-! ### Fan safety limits and overrides (gymdeck3/src/fan/safety.rs) -/

structure FanSafetyLimits where
  critical_temp : Int
  high_temp : Int
  zero_rpm_max_temp : Int
  allow_zero_rpm : Bool
deriving DecidableEq

/-- Default limits: critical 90, high 85, zero-RPM max 45, zero RPM disabled. -/
def defaultFanSafetyLimits : FanSafetyLimits := ⟨90, 85, 45, false⟩

inductive SafetyOverride where
  | None
  | ForcePwm (pwm : Nat)
  | MinimumPwm (pwm : Nat)
deriving DecidableEq

/-- Embedding of `check_safety_override` in fan/safety.rs. -/
def check_safety_override (temp_c : Int) (limits : FanSafetyLimits) : SafetyOverride :=
  if limits.critical_temp ≤ temp_c then .ForcePwm 255
  else if limits.high_temp ≤ temp_c then .MinimumPwm 204
  else .None

/-- Embedding of `is_zero_rpm_safe` in fan/safety.rs. -/
def is_zero_rpm_safe (temp_c : Int) (limits : FanSafetyLimits) : Bool :=
  limits.allow_zero_rpm && decide (temp_c ≤ limits.zero_rpm_max_temp)

/-- Embedding of `apply_safety_override` in fan/safety.rs. -/
def apply_safety_override (calculated_pwm : Nat) (temp_c : Int)
    (limits : FanSafetyLimits) : Nat :=
  match check_safety_override temp_c limits with
  | .ForcePwm pwm => pwm
  | .MinimumPwm min_pwm => max calculated_pwm min_pwm
  | .None =>
    if calculated_pwm = 0 ∧ is_zero_rpm_safe temp_c limits = false then 30
    else calculated_pwm

/-! ### Stable sorting (model of Rust slice::sort_by / sort_by_key)

Rust `sort_by` is a stable comparison sort; a stable insertion sort is an
extensionally equal model that reduces structurally. -/

def insertSorted (le : α → α → Bool) (a : α) : List α → List α
  | [] => [a]
  | b :: l => if le a b then a :: b :: l else b :: insertSorted le a l

def sort_by (le : α → α → Bool) : List α → List α
  | [] => []
  | a :: l => insertSorted le a (sort_by le l)

/-! ### Fan curve (gymdeck3/src/fan/controller.rs) -/

structure FanCurvePoint where
  temp_c : Int
  speed_percent : Nat
deriving DecidableEq, Inhabited

/-- Embedding of `FanCurvePoint::new`: the speed percent is clamped to 100. -/
def FanCurvePoint.new (temp_c : Int) (speed_percent : Nat) : FanCurvePoint :=
  ⟨temp_c, min speed_percent 100⟩

structure FanCurve where
  points : List FanCurvePoint
deriving DecidableEq

/-- Embedding of `FanCurve::new`: at least 2 points required, sorted by temperature. -/
def FanCurve.new (points : List FanCurvePoint) : Except String FanCurve :=
  if points.length < 2 then .error "Fan curve requires at least 2 points"
  else .ok ⟨sort_by (fun a b => decide (a.temp_c ≤ b.temp_c)) points⟩

/-- Embedding of `FanCurve::from_tuples`. -/
def FanCurve.from_tuples (tuples : List (Int × Nat)) : Except String FanCurve :=
  FanCurve.new (tuples.map fun t => FanCurvePoint.new t.1 t.2)

/-- Embedding of `FanCurve::interpolate`: Rust `i32` division truncates toward
zero (`Int.tdiv`), and the result is clamped to the 0..=100 percent range. -/
def FanCurve.interpolate (temp_c : Int) (p1 p2 : FanCurvePoint) : Nat :=
  let temp_range := p2.temp_c - p1.temp_c
  if temp_range = 0 then p1.speed_percent
  else
    let speed_range : Int := (p2.speed_percent : Int) - (p1.speed_percent : Int)
    let temp_offset := temp_c - p1.temp_c
    let speed := (p1.speed_percent : Int) + Int.tdiv (speed_range * temp_offset) temp_range
    (min (max speed 0) 100).toNat

/-- The bracketing-pair search loop inside `FanCurve::calculate_speed`:
the first consecutive pair `(p1, p2)` with `p1.temp_c <= t <= p2.temp_c`. -/
def FanCurve.findBracket (temp_c : Int) : List FanCurvePoint → Option (FanCurvePoint × FanCurvePoint)
  | p1 :: p2 :: rest =>
    if p1.temp_c ≤ temp_c ∧ temp_c ≤ p2.temp_c then some (p1, p2)
    else FanCurve.findBracket temp_c (p2 :: rest)
  | _ => none

/-- Embedding of `FanCurve::calculate_speed`. -/
def FanCurve.calculate_speed (c : FanCurve) (temp_c : Int) : Nat :=
  match c.points with
  | [] => 50
  | p0 :: rest =>
    if temp_c ≤ p0.temp_c then p0.speed_percent
    else
      let plast := List.getLastD rest p0
      if plast.temp_c ≤ temp_c then plast.speed_percent
      else
        match FanCurve.findBracket temp_c (p0 :: rest) with
        | some (p1, p2) => FanCurve.interpolate temp_c p1 p2
        | none => 50

/-- Embedding of `FanCurve::speed_to_pwm` (exact in `u16` arithmetic). -/
def FanCurve.speed_to_pwm (speed_percent : Nat) : Nat :=
  min speed_percent 100 * 255 / 100

/-! ### Fan controller tick (gymdeck3/src/fan/controller.rs) -/

structure FanControllerConfig where
  hysteresis_temp : Int
  smoothing_samples : Nat
  safety_limits : FanSafetyLimits
  min_pwm_change : Nat
  pwm_smoothing_enabled : Bool

def defaultFanControllerConfig : FanControllerConfig :=
  ⟨2, 5, defaultFanSafetyLimits, 3, true⟩

/-- Mutable per-tick state of `FanController` (history, hysteresis baseline,
last written PWM); the time-dependent smoother is abstracted out. -/
structure FanTickState where
  temp_history : List Int
  last_stable_temp : Option Int
  last_pwm : Nat

/-- Embedding of `FanController::apply_hysteresis`: the stable temperature is
updated only when the absolute change reaches the hysteresis threshold.
Returns the new baseline and the effective temperature. -/
def fan_apply_hysteresis (hysteresis_temp : Int) (last_stable_temp : Option Int)
    (temp : Int) : Option Int × Int :=
  match last_stable_temp with
  | some last =>
    if hysteresis_temp ≤ |temp - last| then (some temp, temp) else (some last, last)
  | none => (some temp, temp)

/-- The history trimming loop: push back, then pop front while over capacity. -/
def trim_history (l : List Int) (samples : Nat) : List Int :=
  l.drop (l.length - samples)

/-- Embedding of the active path of `FanController::update`.
`smoother_out` is the oracle for `pwm_smoother.set_target(x); pwm_smoother.update()`
(its value depends on wall-clock time); the critical branch bypasses it and
forces the safety PWM. Returns the new state and the applied PWM. -/
def fan_update (curve : FanCurve) (cfg : FanControllerConfig) (st : FanTickState)
    (raw_temp : Int) (smoother_out : Nat → Nat) : FanTickState × Nat :=
  let hist := trim_history (st.temp_history ++ [raw_temp]) cfg.smoothing_samples
  let smoothed_temp :=
    if hist.isEmpty then raw_temp
    else Int.tdiv (hist.foldl (· + ·) 0) (hist.length : Int)
  let hyst := fan_apply_hysteresis cfg.hysteresis_temp st.last_stable_temp smoothed_temp
  let target_speed := curve.calculate_speed hyst.2
  let target_pwm := FanCurve.speed_to_pwm target_speed
  let safe_pwm := apply_safety_override target_pwm raw_temp cfg.safety_limits
  let is_critical :=
    match check_safety_override raw_temp cfg.safety_limits with
    | .ForcePwm _ => true
    | _ => false
  let final_pwm :=
    if cfg.pwm_smoothing_enabled = true ∧ is_critical = false then smoother_out safe_pwm
    else safe_pwm
  let pwm_diff := max final_pwm st.last_pwm - min final_pwm st.last_pwm
  let new_last :=
    if cfg.min_pwm_change ≤ pwm_diff ∨ final_pwm = 0 ∨ final_pwm = 255 then final_pwm
    else st.last_pwm
  (⟨hist, hyst.1, new_last⟩, new_last)

/-! ### Undervolt hysteresis (gymdeck3/src/hysteresis.rs) -/

structure HysteresisState where
  last_stable_load : Option ℚ
  last_output : Int
  in_dead_band : Bool
deriving DecidableEq

def HysteresisState.new : HysteresisState := ⟨none, 0, false⟩

/-- Embedding of the per-core body of `HysteresisController::process`. -/
def hysteresis_process (margin_percent : ℚ) (st : HysteresisState) (load : ℚ)
    (raw_target : Int) : HysteresisState × Int :=
  match st.last_stable_load with
  | none => (⟨some load, raw_target, false⟩, raw_target)
  | some last_stable =>
    let lower_bound := last_stable - margin_percent
    let upper_bound := last_stable + margin_percent
    if lower_bound ≤ load ∧ load ≤ upper_bound then
      (⟨some last_stable, st.last_output, true⟩, st.last_output)
    else
      (⟨some load, raw_target, false⟩, raw_target)

structure HysteresisController where
  margin_percent : ℚ
  per_core_state : List HysteresisState

/-- Embedding of `HysteresisController::process` (the Rust code indexes the
per-core vector; out-of-range indexing is totalized with a default). -/
def HysteresisController.process (c : HysteresisController) (core_idx : Nat) (load : ℚ)
    (raw_target : Int) : HysteresisController × Int :=
  let st := c.per_core_state.getD core_idx HysteresisState.new
  let r := hysteresis_process c.margin_percent st load raw_target
  (⟨c.margin_percent, c.per_core_state.set core_idx r.1⟩, r.2)

/-! ### Fixed-step interpolator (gymdeck3/src/interpolation.rs) -/

structure CoreInterpolationState where
  current : Int
  target : Int
deriving DecidableEq

def CoreInterpolationState.new : CoreInterpolationState := ⟨0, 0⟩

/-- Embedding of `CoreInterpolationState::tick`. -/
def CoreInterpolationState.tick (st : CoreInterpolationState) (step_size : Int) :
    CoreInterpolationState :=
  if st.current = st.target then st
  else
    let diff := st.target - st.current
    let step :=
      if |diff| ≤ step_size then diff
      else if 0 < diff then step_size else -step_size
    { st with current := st.current + step }

structure Interpolator where
  states : List CoreInterpolationState
  step_size_mv : Int

/-- Embedding of `Interpolator::tick`: every core steps once; returns the new
state and the vector of current values. -/
def Interpolator.tick (it : Interpolator) : Interpolator × List Int :=
  let states := it.states.map (fun st => st.tick it.step_size_mv)
  (⟨states, it.step_size_mv⟩, states.map (fun st => st.current))

/-- Remaining distance to target (`Interpolator::remaining_distance`). -/
def CoreInterpolationState.dist (st : CoreInterpolationState) : Nat :=
  (st.target - st.current).natAbs

/-- Iterated per-core ticks. -/
def CoreInterpolationState.tickN (step_size : Int) (n : Nat)
    (st : CoreInterpolationState) : CoreInterpolationState :=
  (fun s => CoreInterpolationState.tick s step_size)^[n] st

/-! ### Actuator failure counting (DeckTune/gymdeck3/src/ryzenadj.rs) -/

structure RyzenadjExecutor where
  consecutive_failures : Nat
  max_failures : Nat

/-- Embedding of `RyzenadjExecutor::record_failure`: increments the counter;
fatal (`error`) once the counter reaches the maximum, non-fatal (`ok`) with
the current count below it. -/
def RyzenadjExecutor.record_failure (e : RyzenadjExecutor) :
    RyzenadjExecutor × Except Nat Nat :=
  let n := e.consecutive_failures + 1
  ({ e with consecutive_failures := n },
   if e.max_failures ≤ n then .error n else .ok n)

/-- Embedding of `RyzenadjExecutor::record_success`. -/
def RyzenadjExecutor.record_success (e : RyzenadjExecutor) : RyzenadjExecutor :=
  { e with consecutive_failures := 0 }

/-- Loop body of `simulate_failure_sequence`. -/
def simulate_go (max_failures : Nat) : List Bool → Nat → Except Nat Nat
  | [], acc => .ok acc
  | success :: rest, acc =>
    if success then simulate_go max_failures rest 0
    else
      if max_failures ≤ acc + 1 then .error (acc + 1)
      else simulate_go max_failures rest (acc + 1)

/-- Embedding of `simulate_failure_sequence` in ryzenadj.rs. -/
def simulate_failure_sequence (results : List Bool) (max_failures : Nat) :
    Except Nat Nat :=
  simulate_go max_failures results 0

/-! ### Undervolt strategies (gymdeck3/src/strategy) -/

structure CoreBounds where
  min_mv : Int
  max_mv : Int
  threshold : ℚ
deriving DecidableEq

/-- Embedding of `clamp_to_bounds` in strategy/mod.rs:
`value.max(max_mv).min(min_mv)` (max_mv is the more negative bound). -/
def clamp_to_bounds (value : Int) (bounds : CoreBounds) : Int :=
  min (max value bounds.max_mv) bounds.min_mv

/-- Rounding half away from zero, the behaviour of Rust `f32::round`. -/
def roundAwayFromZero (q : ℚ) : ℤ :=
  if 0 ≤ q then ⌊q + 1 / 2⌋ else ⌈q - 1 / 2⌉

/-- Truncation toward zero of a rational, the rounding of Rust integer division. -/
def truncTowardZero (q : ℚ) : ℤ :=
  if 0 ≤ q then ⌊q⌋ else ⌈q⌉

/-- Embedding of `lerp` in strategy/mod.rs (t clamped to the unit interval,
result rounded half away from zero as `f32::round` does). -/
def lerp (a b : Int) (t : ℚ) : Int :=
  let u := min (max t 0) 1
  roundAwayFromZero ((a : ℚ) + ((b : ℚ) - (a : ℚ)) * u)

/-- Embedding of `BalancedStrategy::calculate_target`. -/
def BalancedStrategy.calculate_target (load : ℚ) (bounds : CoreBounds) : Int :=
  let l := min (max load 0) 100
  clamp_to_bounds (lerp bounds.max_mv bounds.min_mv (l / 100)) bounds

/-- Embedding of `ConservativeStrategy::calculate_target` (same ramp shape,
5 s ramp time). -/
def ConservativeStrategy.calculate_target (load : ℚ) (bounds : CoreBounds) : Int :=
  let l := min (max load 0) 100
  clamp_to_bounds (lerp bounds.max_mv bounds.min_mv (l / 100)) bounds

/-- Modelled from the spec: `AggressiveStrategy::calculate_target`.
The file src/gymdeck3/src/strategy/aggressive.rs is not present under src/
(strategy/mod.rs only declares and re-exports the module). The spec describes
every fixed strategy as the same monotone two-point load ramp
(0 percent load to max_mv, 100 percent load to min_mv), differing only in ramp
time (500 ms here), each ending in a clamp to the core bounds. -/
def AggressiveStrategy.calculate_target (load : ℚ) (bounds : CoreBounds) : Int :=
  let l := min (max load 0) 100
  clamp_to_bounds (lerp bounds.max_mv bounds.min_mv (l / 100)) bounds

/-! ### Custom strategy (DeckTune/gymdeck3/src/strategy/custom.rs) -/

structure CustomStrategy where
  curve : List (ℚ × Int)

/-- Embedding of `CustomStrategy::new`: sorts by load and substitutes the
default point `(0, 0)` when the list is empty (construction never fails). -/
def CustomStrategy.new (curve0 : List (ℚ × Int)) : CustomStrategy :=
  let curve := sort_by (fun a b => decide (a.1 ≤ b.1)) curve0
  if curve.isEmpty then ⟨[(0, 0)]⟩ else ⟨curve⟩

/-- The index-search loop inside `CustomStrategy::interpolate`: walks the
curve tracking the last index whose load is at most the input, breaking at the
first index at least the input that is below the current upper index. -/
def customSearchGo (load : ℚ) : Nat → Nat → Nat → List (ℚ × Int) → Nat × Nat
  | lower_idx, upper_idx, _, [] => (lower_idx, upper_idx)
  | lower_idx, upper_idx, i, p :: rest =>
    let lower' := if p.1 ≤ load then i else lower_idx
    if load ≤ p.1 ∧ i < upper_idx then (lower', i)
    else customSearchGo load lower' upper_idx (i + 1) rest

/-- Embedding of `CustomStrategy::interpolate`. The input load is clamped to
0..=100 first; the `(load2 - load1).abs() < f32::EPSILON` degeneracy test is
modelled as an exact zero test. -/
def custom_interpolate (curve : List (ℚ × Int)) (load0 : ℚ) : Int :=
  let load := min (max load0 0) 100
  if curve.length = 1 then (curve.getD 0 (0, 0)).2
  else
    let idxs := customSearchGo load 0 (curve.length - 1) 0 curve
    if load ≤ (curve.getD 0 (0, 0)).1 then (curve.getD 0 (0, 0)).2
    else if (curve.getLastD (0, 0)).1 ≤ load then (curve.getLastD (0, 0)).2
    else
      let q1 := curve.getD idxs.1 (0, 0)
      let q2 := curve.getD idxs.2 (0, 0)
      if q2.1 - q1.1 = 0 then q1.2
      else
        let t := (load - q1.1) / (q2.1 - q1.1)
        roundAwayFromZero ((q1.2 : ℚ) + ((q2.2 : ℚ) - (q1.2 : ℚ)) * t)

/-- Embedding of `CustomStrategy::interpolate` on the strategy value. -/
def CustomStrategy.interpolate (s : CustomStrategy) (load : ℚ) : Int :=
  custom_interpolate s.curve load

/-- Embedding of `CustomStrategy::calculate_target`. -/
def CustomStrategy.calculate_target (s : CustomStrategy) (load : ℚ)
    (bounds : CoreBounds) : Int :=
  clamp_to_bounds (s.interpolate load) bounds

/-! ## Theorems -/

/-- Claim C1: safety dominance. For every calculated PWM value and every raw
temperature reading at or above the critical threshold, the PWM applied by the
fan control tick is the maximum 255, regardless of the fan curve, the
temperature history, the hysteresis state, the last written PWM, and the
PWM-smoother (rate-limiter) output, which is bypassed in this case. -/
theorem C1_safety_dominance (curve : FanCurve) (cfg : FanControllerConfig)
    (st : FanTickState) (raw_temp : Int) (smoother_out : Nat → Nat)
    (h : cfg.safety_limits.critical_temp ≤ raw_temp) :
    (fan_update curve cfg st raw_temp smoother_out).2 = 255 := by
  simp only [fan_update, apply_safety_override, check_safety_override, if_pos h]
  simp

/-- Witness for C1: a concrete critical-temperature tick applies 255. -/
theorem C1_safety_dominance_witness :
    defaultFanControllerConfig.safety_limits.critical_temp ≤ 95 ∧
    (fan_update ⟨[⟨40, 20⟩, ⟨80, 100⟩]⟩ defaultFanControllerConfig ⟨[], none, 0⟩ 95
      (fun _ => 7)).2 = 255 :=
  ⟨by decide, C1_safety_dominance _ _ _ _ _ (by decide)⟩

/-- Claim C2 counterexample: at reading 40 (at most the zero-RPM threshold 45,
below the high threshold 85) with `allow_zero_rpm = false` and computed output
0, the claim predicts the 0 passes through unchanged, but the code substitutes
the non-zero floor 30. -/
theorem C2_zero_output_counterexample :
    apply_safety_override 0 40 defaultFanSafetyLimits = 30 ∧
    (40 : Int) ≤ defaultFanSafetyLimits.zero_rpm_max_temp ∧
    defaultFanSafetyLimits.allow_zero_rpm = false ∧
    (40 : Int) < defaultFanSafetyLimits.high_temp := by decide

/-- Claim C2 (amended): below both temperature tiers the computed output passes
through unchanged, except that the floor output 30 is substituted exactly when
the computed output is 0 and zero RPM is not currently safe, i.e. unless
`allow_zero_output` is true and the reading is at most
`zero_output_max_threshold`. (The code substitutes whenever `allow_zero_output`
is false, even for readings at or below the threshold.) -/
theorem C2_zero_output_amended (p : Nat) (t : Int) (limits : FanSafetyLimits)
    (hc : t < limits.critical_temp) (hh : t < limits.high_temp) :
    apply_safety_override p t limits =
      if p = 0 ∧ ¬(limits.allow_zero_rpm = true ∧ t ≤ limits.zero_rpm_max_temp) then 30
      else p := by
  unfold apply_safety_override check_safety_override
  rw [if_neg (by omega), if_neg (by omega)]
  simp only [is_zero_rpm_safe, Bool.and_eq_false_iff, decide_eq_false_iff_not]
  congr 1
  simp only [eq_iff_iff]
  constructor
  · rintro ⟨hp, hz⟩
    refine ⟨hp, ?_⟩
    rintro ⟨ha, ht⟩
    rcases hz with hz | hz
    · simp [ha] at hz
    · exact hz ht
  · rintro ⟨hp, hz⟩
    refine ⟨hp, ?_⟩
    by_cases ha : limits.allow_zero_rpm = true
    · right
      intro ht
      exact hz ⟨ha, ht⟩
    · left
      simpa using ha

/-- Witness for C2 (amended): the default limits at reading 40 with computed
output 0 substitute the floor 30. -/
theorem C2_zero_output_amended_witness :
    apply_safety_override 0 40 defaultFanSafetyLimits =
      if (0 : Nat) = 0 ∧ ¬(defaultFanSafetyLimits.allow_zero_rpm = true ∧
          (40 : Int) ≤ defaultFanSafetyLimits.zero_rpm_max_temp) then 30
      else 0 :=
  C2_zero_output_amended 0 40 defaultFanSafetyLimits (by decide) (by decide)

/-- Claim C3: the safety guard never decreases a caller-supplied PWM value
(within the u8 range): the single substitution case raises 0 to 30, the
minimum tier takes a max, and the critical tier forces 255; and at or above
the critical threshold the result is exactly 255, independent of the input. -/
theorem C3_guard_never_decreases (p : Nat) (t : Int) (limits : FanSafetyLimits)
    (hp : p ≤ 255) :
    p ≤ apply_safety_override p t limits ∧
    (limits.critical_temp ≤ t → apply_safety_override p t limits = 255) := by
  unfold apply_safety_override check_safety_override
  constructor
  · split_ifs <;> simp_all
  · intro h
    rw [if_pos h]

/-- Witness for C3: concrete instance at PWM 100 and temperature 95. -/
theorem C3_guard_never_decreases_witness :
    100 ≤ apply_safety_override 100 95 defaultFanSafetyLimits ∧
    apply_safety_override 100 95 defaultFanSafetyLimits = 255 :=
  ⟨(C3_guard_never_decreases 100 95 defaultFanSafetyLimits (by decide)).1,
   (C3_guard_never_decreases 100 95 defaultFanSafetyLimits (by decide)).2 (by decide)⟩

/-- Claim C4 counterexample: in the fan temperature hysteresis variant, an
input exactly at the margin boundary (temperature 52 with baseline 50 and
margin 2, so the deviation equals the margin) does not stay in the dead band
as the claim states: the code updates the baseline and returns the new
temperature. -/
theorem C4_hysteresis_counterexample :
    |(52 : Int) - 50| ≤ 2 ∧ fan_apply_hysteresis 2 (some 50) 52 = (some 52, 52) := by
  decide

/-- Claim C4 (amended): in the per-core undervolt filter, once a baseline I0
is established with margin M, an input within the margin inclusive at both
bounds stays in the dead band (previous output returned, candidate ignored)
and an input strictly beyond it exits (baseline and output updated); in the
fan temperature hysteresis the boundary is exclusive for staying: a deviation
strictly below the margin stays, and a deviation at or above the margin
updates. -/
theorem C4_hysteresis_amended (M : ℚ) (st : HysteresisState) (I0 load : ℚ)
    (cand : Int) (Mf last temp : Int) (hb : st.last_stable_load = some I0) :
    (|load - I0| ≤ M →
      hysteresis_process M st load cand = (⟨some I0, st.last_output, true⟩, st.last_output)) ∧
    (M < |load - I0| →
      hysteresis_process M st load cand = (⟨some load, cand, false⟩, cand)) ∧
    (|temp - last| < Mf → fan_apply_hysteresis Mf (some last) temp = (some last, last)) ∧
    (Mf ≤ |temp - last| → fan_apply_hysteresis Mf (some last) temp = (some temp, temp)) := by
  refine ⟨?_, ?_, ?_, ?_⟩
  · intro h
    rw [abs_le] at h
    unfold hysteresis_process
    rw [hb]
    dsimp only
    rw [if_pos ⟨by linarith [h.1], by linarith [h.2]⟩]
  · intro h
    unfold hysteresis_process
    rw [hb]
    dsimp only
    rw [if_neg]
    rintro ⟨h1, h2⟩
    have : |load - I0| ≤ M := abs_le.mpr ⟨by linarith, by linarith⟩
    linarith
  · intro h
    unfold fan_apply_hysteresis
    dsimp only
    rw [if_neg (not_le.mpr h)]
  · intro h
    unfold fan_apply_hysteresis
    dsimp only
    rw [if_pos h]

/-- Witness for C4 (amended): a concrete in-band undervolt step keeps the
previous output, and a concrete in-band fan step keeps the previous stable
temperature. -/
theorem C4_hysteresis_amended_witness :
    hysteresis_process 5 ⟨some 50, -30, false⟩ 52 (-28) = (⟨some 50, -30, true⟩, -30) ∧
    fan_apply_hysteresis 2 (some 50) 51 = (some 50, 50) :=
  ⟨(C4_hysteresis_amended 5 ⟨some 50, -30, false⟩ 50 52 (-28) 2 50 51 rfl).1
      (by rw [abs_le]; constructor <;> norm_num),
   (C4_hysteresis_amended 5 ⟨some 50, -30, false⟩ 50 52 (-28) 2 50 51 rfl).2.2.1 (by decide)⟩

/-! Supporting lemmas for the fixed-step interpolator. -/

theorem CoreInterpolationState.tick_target (st : CoreInterpolationState) (step : Int) :
    (st.tick step).target = st.target := by
  simp only [CoreInterpolationState.tick]
  split_ifs <;> rfl

theorem CoreInterpolationState.tick_dist (st : CoreInterpolationState) (step : Int)
    (hs : 0 < step) : (st.tick step).dist = st.dist - step.toNat := by
  have habs : |st.target - st.current| = ((st.target - st.current).natAbs : Int) :=
    Int.abs_eq_natAbs _
  simp only [CoreInterpolationState.tick, CoreInterpolationState.dist, habs]
  split_ifs with h1 h2 h3 <;> try dsimp only
  all_goals omega

theorem CoreInterpolationState.tickN_dist (st : CoreInterpolationState) (step : Int)
    (hs : 0 < step) (n : Nat) :
    (CoreInterpolationState.tickN step n st).dist = st.dist - n * step.toNat := by
  induction n generalizing st with
  | zero => simp [CoreInterpolationState.tickN]
  | succ n ih =>
    rw [CoreInterpolationState.tickN, Function.iterate_succ_apply]
    rw [show ((fun s => CoreInterpolationState.tick s step)^[n]
        (st.tick step)) = CoreInterpolationState.tickN step n (st.tick step) from rfl]
    rw [ih (st.tick step), CoreInterpolationState.tick_dist st step hs]
    rw [Nat.succ_mul, Nat.sub_sub, Nat.add_comm]

/-- Claim C5: fixed-step interpolator contract, for every core state, every
positive step size: a tick lands exactly on the target when the remaining
distance is at most the step size and otherwise moves the current value by
exactly the step size; the distance to target is strictly decreasing on every
tick while transitioning, satisfies a closed form, is exactly zero after
ceil(distance / step) ticks and nonzero before; and the multi-core
`Interpolator::tick` applies the per-core tick on every core. -/
theorem C5_interpolator_contract (st : CoreInterpolationState) (step : Int)
    (it : Interpolator) (hs : 0 < step) :
    (st.dist ≤ step.toNat → (st.tick step).current = st.target) ∧
    (step.toNat < st.dist → ((st.tick step).current - st.current).natAbs = step.toNat) ∧
    (st.current ≠ st.target → (st.tick step).dist < st.dist) ∧
    (∀ n : Nat, (CoreInterpolationState.tickN step n st).dist = st.dist - n * step.toNat) ∧
    (CoreInterpolationState.tickN step ((st.dist + step.toNat - 1) / step.toNat) st).dist
      = 0 ∧
    (∀ n : Nat, n < (st.dist + step.toNat - 1) / step.toNat →
      (CoreInterpolationState.tickN step n st).dist ≠ 0) ∧
    (Interpolator.tick it).2 = it.states.map (fun s => (s.tick it.step_size_mv).current) := by
  have hs' : 0 < step.toNat := by omega
  refine ⟨?_, ?_, ?_, CoreInterpolationState.tickN_dist st step hs, ?_, ?_, ?_⟩
  · intro h
    have hd := CoreInterpolationState.tick_dist st step hs
    have ht := CoreInterpolationState.tick_target st step
    have : (st.tick step).dist = 0 := by omega
    simp only [CoreInterpolationState.dist, ht] at this
    omega
  · intro h
    simp only [CoreInterpolationState.dist] at h
    have habs : |st.target - st.current| = ((st.target - st.current).natAbs : Int) :=
      Int.abs_eq_natAbs _
    simp only [CoreInterpolationState.tick, habs]
    split_ifs with h1 h2 h3 <;> try dsimp only
    all_goals omega
  · intro h
    have hd := CoreInterpolationState.tick_dist st step hs
    have hpos : 0 < st.dist := by
      simp only [CoreInterpolationState.dist]
      omega
    omega
  · rw [CoreInterpolationState.tickN_dist st step hs]
    have h2 := Nat.lt_div_mul_add (a := st.dist + step.toNat - 1) hs'
    generalize (st.dist + step.toNat - 1) / step.toNat * step.toNat = A at *
    omega
  · intro n hn
    rw [CoreInterpolationState.tickN_dist st step hs]
    have h1 : (n + 1) * step.toNat
        ≤ (st.dist + step.toNat - 1) / step.toNat * step.toNat :=
      Nat.mul_le_mul_right _ (Nat.succ_le_of_lt hn)
    have h2 : (st.dist + step.toNat - 1) / step.toNat * step.toNat
        ≤ st.dist + step.toNat - 1 := Nat.div_mul_le_self _ _
    rw [Nat.succ_mul] at h1
    generalize (st.dist + step.toNat - 1) / step.toNat * step.toNat = A at *
    generalize n * step.toNat = B at *
    omega
  · simp only [Interpolator.tick, List.map_map]
    rfl

/-- Witness for C5: with step 5 from 0 toward -12 the distance is zero after
ceil(12 / 5) = 3 ticks. -/
theorem C5_interpolator_contract_witness :
    (0 : Int) < 5 ∧
    (CoreInterpolationState.tickN 5
      (((⟨0, -12⟩ : CoreInterpolationState).dist + (5 : Int).toNat - 1) / (5 : Int).toNat)
      ⟨0, -12⟩).dist = 0 :=
  ⟨by decide, (C5_interpolator_contract ⟨0, -12⟩ 5 ⟨[⟨3, 7⟩], 1⟩ (by decide)).2.2.2.2.1⟩

/-! Supporting lemmas for the failure counter. -/

theorem simulate_go_replicate (N : Nat) :
    ∀ (k acc : Nat), acc + k < N →
      simulate_go N (List.replicate k false) acc = .ok (acc + k) := by
  intro k
  induction k with
  | zero => intro acc h; simp [simulate_go]
  | succ k ih =>
    intro acc h
    rw [List.replicate_succ]
    unfold simulate_go
    rw [if_neg (by simp)]
    rw [if_neg (by omega)]
    rw [ih (acc + 1) (by omega)]
    congr 1
    omega

theorem simulate_go_replicate_fatal (N : Nat) :
    ∀ (k acc : Nat), acc + k = N → 0 < k →
      simulate_go N (List.replicate k false) acc = .error N := by
  intro k
  induction k with
  | zero => omega
  | succ k ih =>
    intro acc h hk
    rw [List.replicate_succ]
    unfold simulate_go
    rw [if_neg (by simp)]
    by_cases hN : N ≤ acc + 1
    · rw [if_pos hN]
      congr 1
      omega
    · rw [if_neg hN]
      exact ih (acc + 1) (by omega) (by omega)

theorem simulate_go_append_true (N : Nat) :
    ∀ (l : List Bool) (acc c : Nat), simulate_go N l acc = .ok c →
      simulate_go N (l ++ [true]) acc = .ok 0 := by
  intro l
  induction l with
  | nil =>
    intro acc c h
    simp [simulate_go]
  | cons b rest ih =>
    intro acc c h
    rw [List.cons_append]
    cases b
    · simp only [simulate_go] at h ⊢
      rw [if_neg (by simp)] at h ⊢
      by_cases hN : N ≤ acc + 1
      · rw [if_pos hN] at h
        exact absurd h (by simp)
      · rw [if_neg hN] at h ⊢
        exact ih _ _ h
    · simp only [simulate_go, if_true] at h ⊢
      exact ih _ _ h

/-- Claim C6: failure-counter semantics with maximum N: N-1 consecutive
failures followed by one success leave the counter at 0; N consecutive
failures are fatal exactly at the Nth failure and never before (every shorter
all-failure run ends non-fatally carrying its count); and a single success
resets the counter to 0 after any non-fatal history. -/
theorem C6_failure_counter (N : Nat) (hN : 1 ≤ N) :
    simulate_failure_sequence (List.replicate (N - 1) false ++ [true]) N = .ok 0 ∧
    simulate_failure_sequence (List.replicate N false) N = .error N ∧
    (∀ k, k < N → simulate_failure_sequence (List.replicate k false) N = .ok k) ∧
    (∀ (l : List Bool) (c : Nat), simulate_failure_sequence l N = .ok c →
      simulate_failure_sequence (l ++ [true]) N = .ok 0) := by
  refine ⟨?_, ?_, ?_, ?_⟩
  · exact simulate_go_append_true N _ 0 (N - 1)
      (by simpa using simulate_go_replicate N (N - 1) 0 (by omega))
  · simpa using simulate_go_replicate_fatal N N 0 (by omega) (by omega)
  · intro k hk
    simpa using simulate_go_replicate N k 0 (by omega)
  · intro l c h
    exact simulate_go_append_true N l 0 c h

/-- Witness for C6 at the production maximum N = 5. -/
theorem C6_failure_counter_witness :
    simulate_failure_sequence (List.replicate 4 false ++ [true]) 5 = .ok 0 ∧
    simulate_failure_sequence (List.replicate 5 false) 5 = .error 5 ∧
    simulate_failure_sequence (List.replicate 3 false) 5 = .ok 3 :=
  ⟨(C6_failure_counter 5 (by decide)).1, (C6_failure_counter 5 (by decide)).2.1,
   (C6_failure_counter 5 (by decide)).2.2.1 3 (by decide)⟩

/-! Supporting lemmas for sorting lengths. -/

theorem insertSorted_length (le : α → α → Bool) (a : α) :
    ∀ l : List α, (insertSorted le a l).length = l.length + 1 := by
  intro l
  induction l with
  | nil => rfl
  | cons b l ih =>
    unfold insertSorted
    split_ifs <;> simp [ih]

theorem sort_by_length (le : α → α → Bool) :
    ∀ l : List α, (sort_by le l).length = l.length := by
  intro l
  induction l with
  | nil => rfl
  | cons a l ih => simp [sort_by, insertSorted_length, ih]

/-- Claim C8 counterexample: the custom undervolt strategy constructor does
not fail on an empty point list (it silently substitutes the default point
`(0, 0)`), and a fan speed above 100 percent does not make fan-curve
construction fail (the point is silently clamped to 100). -/
theorem C8_construction_counterexample :
    (CustomStrategy.new []).curve = [(0, 0)] ∧
    (FanCurve.from_tuples [(40, 150), (80, 100)]).toOption
      = some ⟨[⟨40, 100⟩, ⟨80, 100⟩]⟩ :=
  ⟨rfl, by decide⟩

/-- Claim C8 (amended): fan-curve construction fails exactly when fewer than
2 points are supplied; output-range violations never cause an error: fan
speeds above 100 are clamped to 100 at point construction, and the custom
undervolt strategy never fails, always producing at least one point (an empty
input is replaced by the default `(0, 0)`), with no range check on outputs. -/
theorem C8_construction_amended (pts : List FanCurvePoint) (c : List (ℚ × Int))
    (t : Int) (s : Nat) :
    ((FanCurve.new pts).toOption.isSome = true ↔ 2 ≤ pts.length) ∧
    (FanCurvePoint.new t s).speed_percent = min s 100 ∧
    1 ≤ (CustomStrategy.new c).curve.length := by
  refine ⟨?_, rfl, ?_⟩
  · unfold FanCurve.new
    split_ifs with h
    · simp only [Except.toOption, Option.isSome]
      constructor
      · intro hc
        exact absurd hc (by simp)
      · omega
    · simp only [Except.toOption, Option.isSome]
      constructor
      · intro _
        omega
      · intro _
        trivial
  · simp only [CustomStrategy.new]
    split_ifs with h
    · simp
    · have hne : sort_by (fun a b => decide (a.1 ≤ b.1)) c ≠ [] := by
        intro he
        exact h (by simp [he])
      simpa using List.length_pos.mpr hne

/-- Witness for C8 (amended) at the empty lists and an out-of-range speed. -/
theorem C8_construction_amended_witness :
    ((FanCurve.new []).toOption.isSome = true ↔ 2 ≤ ([] : List FanCurvePoint).length) ∧
    (FanCurvePoint.new 40 150).speed_percent = min 150 100 ∧
    1 ≤ (CustomStrategy.new []).curve.length :=
  C8_construction_amended [] [] 40 150

/-- Claim C10: every undervolt strategy clamps its result into the per-core
bounds at evaluation time: for every load and bounds with max_mv at most
min_mv, calculate_target lies in the closed interval, even when the custom
curve contains out-of-range outputs (they are clamped at evaluation, not
rejected). -/
theorem C10_strategies_respect_bounds (load : ℚ) (bounds : CoreBounds)
    (s : CustomStrategy) (h : bounds.max_mv ≤ bounds.min_mv) :
    (bounds.max_mv ≤ BalancedStrategy.calculate_target load bounds ∧
      BalancedStrategy.calculate_target load bounds ≤ bounds.min_mv) ∧
    (bounds.max_mv ≤ ConservativeStrategy.calculate_target load bounds ∧
      ConservativeStrategy.calculate_target load bounds ≤ bounds.min_mv) ∧
    (bounds.max_mv ≤ AggressiveStrategy.calculate_target load bounds ∧
      AggressiveStrategy.calculate_target load bounds ≤ bounds.min_mv) ∧
    (bounds.max_mv ≤ s.calculate_target load bounds ∧
      s.calculate_target load bounds ≤ bounds.min_mv) := by
  have key : ∀ v : Int, bounds.max_mv ≤ clamp_to_bounds v bounds ∧
      clamp_to_bounds v bounds ≤ bounds.min_mv := by
    intro v
    unfold clamp_to_bounds
    omega
  exact ⟨key _, key _, key _, key _⟩

/-- Witness for C10: a custom curve with outputs outside the bounds
[-35, -20] still evaluates inside them. -/
theorem C10_strategies_respect_bounds_witness :
    (-35 : Int) ≤ (CustomStrategy.new [(0, -50), (100, -5)]).calculate_target 0 ⟨-20, -35, 50⟩ ∧
    (CustomStrategy.new [(0, -50), (100, -5)]).calculate_target 0 ⟨-20, -35, 50⟩ ≤ -20 :=
  (C10_strategies_respect_bounds 0 ⟨-20, -35, 50⟩
    (CustomStrategy.new [(0, -50), (100, -5)]) (by decide)).2.2.2

/-- Claim C9 counterexample: the custom undervolt evaluator clamps its input
to 0..=100 before evaluating, so for a curve whose lowest point has a negative
load (-5 maps to -30 mV), the input -10 does not return the lowest output -30:
the clamped input 0 is interpolated to -28. -/
theorem C9_boundary_clamping_counterexample :
    ((-10 : ℚ) ≤ -5) ∧
    custom_interpolate [((-5 : ℚ), (-30 : Int)), (50, -10)] (-10) = -28 ∧
    ((-28 : Int) ≠ -30) := by
  refine ⟨by norm_num, ?_, by decide⟩
  norm_num [custom_interpolate, customSearchGo, roundAwayFromZero, List.getD, List.getLastD]
  rw [Int.ceil_eq_iff]; norm_num

/-- Claim C9 (amended): boundary clamping. The fan curve returns the lowest
point output for every input at or below the lowest temperature and the
highest point output for every input at or above the highest temperature
(strictly sorted points). The custom undervolt curve does the same only up to
its initial clamp of the input into 0..=100: the low side holds for every
input when the lowest load is nonnegative, the high side for every input when
the highest load is at most 100. -/
theorem C9_boundary_clamping :
    (∀ (p0 : FanCurvePoint) (rest : List FanCurvePoint) (t : Int),
      t ≤ p0.temp_c → FanCurve.calculate_speed ⟨p0 :: rest⟩ t = p0.speed_percent) ∧
    (∀ (p0 : FanCurvePoint) (rest : List FanCurvePoint) (t : Int),
      List.Pairwise (fun a b => a.temp_c < b.temp_c) (p0 :: rest) →
      (List.getLastD rest p0).temp_c ≤ t →
      FanCurve.calculate_speed ⟨p0 :: rest⟩ t = (List.getLastD rest p0).speed_percent) ∧
    (∀ (p : ℚ × Int) (rest : List (ℚ × Int)) (load : ℚ),
      0 ≤ p.1 → load ≤ p.1 → custom_interpolate (p :: rest) load = p.2) ∧
    (∀ (p : ℚ × Int) (rest : List (ℚ × Int)) (load : ℚ),
      List.Pairwise (fun a b => a.1 < b.1) (p :: rest) →
      (List.getLastD rest p).1 ≤ load → (List.getLastD rest p).1 ≤ 100 →
      custom_interpolate (p :: rest) load = (List.getLastD rest p).2) := by
  refine ⟨?_, ?_, ?_, ?_⟩
  · intro p0 rest t h
    simp only [FanCurve.calculate_speed]
    rw [if_pos h]
  · intro p0 rest t hsorted hlast
    simp only [FanCurve.calculate_speed]
    cases rest with
    | nil =>
      simp only [List.getLastD_nil] at hlast ⊢
      by_cases h1 : t ≤ p0.temp_c
      · rw [if_pos h1]
      · rw [if_neg h1, if_pos hlast]
    | cons r rest2 =>
      have hmem : List.getLastD (r :: rest2) p0 ∈ r :: rest2 := by
        rw [List.getLastD_cons]
        exact List.getLastD_mem_cons rest2 r
      have hlt : p0.temp_c < (List.getLastD (r :: rest2) p0).temp_c :=
        (List.pairwise_cons.mp hsorted).1 _ hmem
      rw [if_neg (by omega), if_pos hlast]
  · intro p rest load hp0 hload
    have hc : min (max load 0) 100 ≤ p.1 :=
      le_trans (min_le_left _ _) (max_le hload hp0)
    simp only [custom_interpolate]
    by_cases h1 : (p :: rest).length = 1
    · rw [if_pos h1, List.getD_cons_zero]
    · rw [if_neg h1, List.getD_cons_zero, if_pos hc]
  · intro p rest load hsorted hload h100
    have hc : (List.getLastD rest p).1 ≤ min (max load 0) 100 :=
      le_min (le_trans hload (le_max_left _ _)) h100
    simp only [custom_interpolate]
    cases rest with
    | nil =>
      simp only [List.getLastD_nil] at hc ⊢
      rw [if_pos (show (p :: ([] : List (ℚ × Int))).length = 1 from rfl)]
      rw [List.getD_cons_zero]
    | cons r rest2 =>
      have hmem : List.getLastD (r :: rest2) p ∈ r :: rest2 := by
        rw [List.getLastD_cons]
        exact List.getLastD_mem_cons rest2 r
      have hlt : p.1 < (List.getLastD (r :: rest2) p).1 :=
        (List.pairwise_cons.mp hsorted).1 _ hmem
      have hlen : ¬ (p :: r :: rest2).length = 1 := by simp
      rw [if_neg hlen]
      have hfirst : ¬ min (max load 0) 100 ≤ ((p :: r :: rest2).getD 0 (0, 0)).1 := by
        rw [List.getD_cons_zero]
        intro hcon
        exact absurd (lt_of_lt_of_le hlt hc) (not_lt.mpr hcon)
      rw [if_neg hfirst]
      have hlastd : (p :: r :: rest2).getLastD (0, 0) = List.getLastD (r :: rest2) p := by
        rw [List.getLastD_cons]
      rw [hlastd]
      rw [if_pos hc]

/-- Witness for C9 (amended): concrete below-lowest and above-highest inputs
return the boundary outputs on both evaluators. -/
theorem C9_boundary_clamping_witness :
    FanCurve.calculate_speed ⟨[⟨40, 20⟩, ⟨80, 100⟩]⟩ 30 = 20 ∧
    FanCurve.calculate_speed ⟨[⟨40, 20⟩, ⟨80, 100⟩]⟩ 90 =
      (List.getLastD [(⟨80, 100⟩ : FanCurvePoint)] ⟨40, 20⟩).speed_percent ∧
    custom_interpolate [((20 : ℚ), (-30 : Int)), (80, -20)] 10 = -30 ∧
    custom_interpolate [((20 : ℚ), (-30 : Int)), (80, -20)] 90 =
      (List.getLastD [((80 : ℚ), (-20 : Int))] (20, -30)).2 :=
  by
  refine ⟨?_, ?_, ?_, ?_⟩
  · exact C9_boundary_clamping.1 ⟨40, 20⟩ [⟨80, 100⟩] 30 (by decide)
  · exact C9_boundary_clamping.2.1 ⟨40, 20⟩ [⟨80, 100⟩] 90 (by decide) (by decide)
  · exact C9_boundary_clamping.2.2.1 (20, -30) [(80, -20)] 10 (by norm_num) (by norm_num)
  · exact C9_boundary_clamping.2.2.2 (20, -30) [(80, -20)] 90
      (by norm_num [List.pairwise_cons]) (by norm_num [List.getLastD])
      (by norm_num [List.getLastD])

/-! Supporting lemmas for the interpolation rounding claim. -/

theorem truncTowardZero_neg (q : ℚ) : truncTowardZero (-q) = -truncTowardZero q := by
  unfold truncTowardZero
  rcases lt_trichotomy q 0 with h | h | h
  · rw [if_pos (by linarith), if_neg (by linarith), Int.floor_neg]
  · subst h
    norm_num
  · rw [if_neg (by linarith), if_pos (by linarith), Int.ceil_neg]

theorem tdiv_eq_truncTowardZero_nonneg (a b : Int) (ha : 0 ≤ a) (hb : 0 < b) :
    Int.tdiv a b = truncTowardZero ((a : ℚ) / (b : ℚ)) := by
  rw [Int.tdiv_eq_ediv ha (le_of_lt hb)]
  unfold truncTowardZero
  rw [if_pos (by positivity)]
  have hz : ((b.toNat : ℕ) : ℤ) = b := Int.toNat_of_nonneg (le_of_lt hb)
  have hq : ((b.toNat : ℕ) : ℚ) = (b : ℚ) := by exact_mod_cast hz
  have hfloor := Rat.floor_intCast_div_natCast a b.toNat
  rw [hq, hz] at hfloor
  exact hfloor.symm

theorem tdiv_eq_truncTowardZero (a b : Int) (hb : 0 < b) :
    Int.tdiv a b = truncTowardZero ((a : ℚ) / (b : ℚ)) := by
  rcases le_or_lt 0 a with ha | ha
  · exact tdiv_eq_truncTowardZero_nonneg a b ha hb
  · have h1 := tdiv_eq_truncTowardZero_nonneg (-a) b (by omega) hb
    have h2 : Int.tdiv a b = -Int.tdiv (-a) b := by
      rw [Int.neg_tdiv, neg_neg]
    rw [h2, h1]
    have hc : ((-a : ℤ) : ℚ) / (b : ℚ) = -((a : ℚ) / (b : ℚ)) := by
      push_cast
      ring
    rw [hc, truncTowardZero_neg, neg_neg]

theorem findBracket_append (t : Int) (p1 p2 : FanCurvePoint) (post : List FanCurvePoint)
    (h1 : p1.temp_c < t) (h2 : t ≤ p2.temp_c) :
    ∀ pre : List FanCurvePoint, (∀ q ∈ pre, q.temp_c < t) →
      FanCurve.findBracket t (pre ++ p1 :: p2 :: post) = some (p1, p2) := by
  intro pre
  induction pre with
  | nil =>
    intro _
    simp only [List.nil_append, FanCurve.findBracket]
    rw [if_pos ⟨le_of_lt h1, h2⟩]
  | cons a pre ih =>
    intro hpre
    cases pre with
    | nil =>
      simp only [List.cons_append, List.nil_append, FanCurve.findBracket]
      rw [if_neg (by rintro ⟨ha1, ha2⟩; omega)]
      rw [if_pos ⟨le_of_lt h1, h2⟩]
    | cons b pre2 =>
      have hb : b.temp_c < t := hpre b (by simp)
      simp only [List.cons_append, FanCurve.findBracket]
      rw [if_neg (by rintro ⟨ha1, ha2⟩; omega)]
      have := ih (fun q hq => hpre q (List.mem_cons_of_mem a hq))
      simpa only [List.cons_append] using this

theorem getLastD_append_cons (a : α) (l2 : List α) :
    ∀ (l1 : List α) (d : α), (l1 ++ a :: l2).getLastD d = (a :: l2).getLastD d := by
  intro l1
  induction l1 with
  | nil => intro d; rfl
  | cons x l1 ih =>
    intro d
    rw [List.cons_append, List.getLastD_cons, ih x, List.getLastD_cons, List.getLastD_cons]

theorem getD_append_length (x : α) (l2 : List α) :
    ∀ (l1 : List α) (d : α), (l1 ++ x :: l2).getD l1.length d = x := by
  intro l1
  induction l1 with
  | nil => intro d; rfl
  | cons a l1 ih =>
    intro d
    rw [List.cons_append, List.length_cons, List.getD_cons_succ, ih d]

/-- On a weakly sorted point list, `calculate_speed` at an input strictly
between two adjacent points evaluates the bracketing-pair interpolation. -/
theorem calculate_speed_bracket (pre post : List FanCurvePoint) (p1 p2 : FanCurvePoint)
    (t : Int)
    (hsorted : List.Pairwise (fun a b => a.temp_c ≤ b.temp_c) (pre ++ p1 :: p2 :: post))
    (h1 : p1.temp_c < t) (h2 : t < p2.temp_c) :
    FanCurve.calculate_speed ⟨pre ++ p1 :: p2 :: post⟩ t = FanCurve.interpolate t p1 p2 := by
  rw [List.pairwise_append] at hsorted
  obtain ⟨hpre_sorted, htail, hrel⟩ := hsorted
  have hpre : ∀ q ∈ pre, q.temp_c < t := by
    intro q hq
    calc q.temp_c ≤ p1.temp_c := hrel q hq p1 (by simp)
      _ < t := h1
  have hplast : t < (List.getLastD (p2 :: post) p1).temp_c := by
    have hpost : ∀ q ∈ post, p2.temp_c ≤ q.temp_c :=
      (List.pairwise_cons.mp (List.pairwise_cons.mp htail).2).1
    have hmem : List.getLastD (p2 :: post) p1 ∈ p2 :: post := by
      rw [List.getLastD_cons]
      exact List.getLastD_mem_cons post p2
    rcases List.mem_cons.mp hmem with he | he
    · rw [he]
      exact h2
    · exact lt_of_lt_of_le h2 (hpost _ he)
  have hfb := findBracket_append t p1 p2 post h1 (le_of_lt h2) pre hpre
  cases pre with
  | nil =>
    simp only [List.nil_append, FanCurve.calculate_speed]
    rw [if_neg (by omega)]
    rw [List.getLastD_cons]
    rw [show List.getLastD (p2 :: post) p1 = List.getLastD post p2 from List.getLastD_cons _ _ _]
       at hplast
    rw [if_neg (by omega)]
    rw [List.nil_append] at hfb
    rw [hfb]
  | cons a pre2 =>
    have ha : a.temp_c < t := hpre a (by simp)
    simp only [List.cons_append, FanCurve.calculate_speed]
    rw [if_neg (by omega)]
    rw [show List.getLastD (pre2 ++ p1 :: p2 :: post) a = List.getLastD (p2 :: post) p1 from by
      rw [getLastD_append_cons p1 (p2 :: post) pre2 a, List.getLastD_cons]]
    rw [if_neg (by omega)]
    rw [List.cons_append] at hfb
    rw [hfb]

/-- The pair interpolation equals the exact rational interpolation increment
truncated toward zero, clamped to the percentage range. -/
theorem interpolate_eq_trunc (t : Int) (p1 p2 : FanCurvePoint) (h : p1.temp_c < p2.temp_c) :
    FanCurve.interpolate t p1 p2 =
      (min (max ((p1.speed_percent : Int) +
        truncTowardZero ((((p2.speed_percent : Int) - (p1.speed_percent : Int)) : ℚ) *
          (((t : ℚ) - (p1.temp_c : ℚ)) / ((p2.temp_c : ℚ) - (p1.temp_c : ℚ))))) 0) 100).toNat := by
  unfold FanCurve.interpolate
  rw [if_neg (by omega)]
  dsimp only
  rw [tdiv_eq_truncTowardZero _ _ (by omega)]
  congr 3
  push_cast
  ring_nf

/-- Walking the search loop over a prefix of points all strictly below the
input only advances the running lower index. -/
theorem customSearchGo_skip (load : ℚ) (S : List (ℚ × Int)) :
    ∀ (pre : List (ℚ × Int)) (j lower upper : Nat), (∀ q ∈ pre, q.1 < load) →
      customSearchGo load lower upper j (pre ++ S) =
        customSearchGo load (if pre.length = 0 then lower else j + pre.length - 1) upper
          (j + pre.length) S := by
  intro pre
  induction pre with
  | nil =>
    intro j lower upper _
    simp
  | cons a pre ih =>
    intro j lower upper hpre
    have ha : a.1 < load := hpre a (by simp)
    rw [List.cons_append]
    simp only [customSearchGo]
    rw [if_pos (le_of_lt ha)]
    rw [if_neg (by rintro ⟨hc, _⟩; exact absurd hc (not_le.mpr ha))]
    rw [ih (j + 1) j upper (fun q hq => hpre q (List.mem_cons_of_mem a hq))]
    rw [List.length_cons]
    rw [show (if pre.length = 0 then j else j + 1 + pre.length - 1) = j + pre.length from by
      split_ifs with he
      · omega
      · omega]
    rw [show j + 1 + pre.length = j + (pre.length + 1) from by omega]
    rw [if_neg (by omega)]
    rw [show j + (pre.length + 1) - 1 = j + pre.length from by omega]

/-- On a weakly sorted curve, `custom_interpolate` at an in-range input
strictly between two adjacent points evaluates the rounded exact linear
interpolation between them. -/
theorem custom_interpolate_bracket (pre post : List (ℚ × Int)) (q1 q2 : ℚ × Int) (load : ℚ)
    (hsorted : List.Pairwise (fun a b => a.1 ≤ b.1) (pre ++ q1 :: q2 :: post))
    (h0 : 0 ≤ load) (h100 : load ≤ 100) (hq1 : q1.1 < load) (hq2 : load < q2.1) :
    custom_interpolate (pre ++ q1 :: q2 :: post) load =
      roundAwayFromZero ((q1.2 : ℚ) + ((q2.2 : ℚ) - (q1.2 : ℚ)) *
        ((load - q1.1) / (q2.1 - q1.1))) := by
  rw [List.pairwise_append] at hsorted
  obtain ⟨hpre_sorted, htail, hrel⟩ := hsorted
  have hclamp : min (max load 0) 100 = load := by
    rw [max_eq_left h0, min_eq_left h100]
  have hlen : (pre ++ q1 :: q2 :: post).length = pre.length + (post.length + 2) := by
    simp
  have hpre : ∀ q ∈ pre ++ [q1], q.1 < load := by
    intro q hq
    rcases List.mem_append.mp hq with hq | hq
    · calc q.1 ≤ q1.1 := hrel q hq q1 (by simp)
        _ < load := hq1
    · rw [List.mem_singleton.mp hq]
      exact hq1
  have hplast : load < (List.getLastD (q2 :: post) q1).1 := by
    have hpost : ∀ q ∈ post, q2.1 ≤ q.1 :=
      (List.pairwise_cons.mp (List.pairwise_cons.mp htail).2).1
    have hmem : List.getLastD (q2 :: post) q1 ∈ q2 :: post := by
      rw [List.getLastD_cons]
      exact List.getLastD_mem_cons post q2
    rcases List.mem_cons.mp hmem with he | he
    · rw [he]
      exact hq2
    · exact lt_of_lt_of_le hq2 (hpost _ he)
  have hsearch : customSearchGo load 0 ((pre ++ q1 :: q2 :: post).length - 1) 0
      (pre ++ q1 :: q2 :: post) = (pre.length, pre.length + 1) := by
    rw [List.append_cons pre q1 (q2 :: post)]
    rw [customSearchGo_skip load (q2 :: post) (pre ++ [q1]) 0 0 _ hpre]
    rw [show (pre ++ [q1]).length = pre.length + 1 from by simp]
    rw [if_neg (by omega)]
    rw [show 0 + (pre.length + 1) - 1 = pre.length from by omega]
    rw [show 0 + (pre.length + 1) = pre.length + 1 from by omega]
    rw [show ((pre ++ [q1]) ++ q2 :: post).length = pre.length + (post.length + 2) from by
      simp]
    simp only [customSearchGo]
    rw [if_neg (not_le.mpr hq2)]
    cases post with
    | nil =>
      rw [if_neg (by simp)]
      simp [customSearchGo]
    | cons r post2 =>
      rw [if_pos ⟨le_of_lt hq2, by simp only [List.length_cons]; omega⟩]
  have hhead : ((pre ++ q1 :: q2 :: post).getD 0 (0, 0)).1 < load := by
    cases pre with
    | nil =>
      rw [List.nil_append, List.getD_cons_zero]
      exact hq1
    | cons a pre2 =>
      rw [List.cons_append, List.getD_cons_zero]
      exact hpre a (by simp)
  have hgd1 : (pre ++ q1 :: q2 :: post).getD pre.length (0, 0) = q1 :=
    getD_append_length q1 (q2 :: post) pre (0, 0)
  have hgd2 : (pre ++ q1 :: q2 :: post).getD (pre.length + 1) (0, 0) = q2 := by
    rw [List.append_cons pre q1 (q2 :: post)]
    rw [show pre.length + 1 = (pre ++ [q1]).length from by simp]
    exact getD_append_length q2 post (pre ++ [q1]) (0, 0)
  simp only [custom_interpolate, hclamp]
  rw [if_neg (by omega)]
  rw [hsearch]
  rw [if_neg (not_le.mpr hhead)]
  rw [show (pre ++ q1 :: q2 :: post).getLastD (0, 0) = List.getLastD (q2 :: post) q1 from by
    rw [getLastD_append_cons q1 (q2 :: post) pre (0, 0), List.getLastD_cons]]
  rw [if_neg (not_le.mpr hplast)]
  rw [hgd1, hgd2]
  rw [if_neg (by intro hcon; rw [sub_eq_zero] at hcon; rw [hcon] at hq2; linarith)]

/-- Claim C7 counterexample: for the fan curve through (40 C, 0 percent) and
(50 C, 3 percent), the exact interpolation at 45 C is 1.5 percent, whose
half-away-from-zero rounding is 2, but the evaluator returns 1 (Rust integer
division truncates). -/
theorem C7_interpolation_counterexample :
    (FanCurve.from_tuples [(40, 0), (50, 3)]).toOption = some ⟨[⟨40, 0⟩, ⟨50, 3⟩]⟩ ∧
    FanCurve.calculate_speed ⟨[⟨40, 0⟩, ⟨50, 3⟩]⟩ 45 = 1 ∧
    roundAwayFromZero ((0 : ℚ) + ((3 : ℚ) - 0) * (((45 : ℚ) - 40) / ((50 : ℚ) - 40))) = 2 := by
  refine ⟨by decide, by decide, ?_⟩
  rw [show ((0 : ℚ) + ((3 : ℚ) - 0) * (((45 : ℚ) - 40) / ((50 : ℚ) - 40))) = 3 / 2 from by
    norm_num]
  unfold roundAwayFromZero
  rw [if_pos (by norm_num)]
  rw [show (3 / 2 + 1 / 2 : ℚ) = 2 from by norm_num]
  rw [Int.floor_eq_iff]; norm_num

/-- Claim C7 (amended): for every curve and input strictly between two
adjacent points, the custom undervolt evaluator returns the exact linear
interpolation p1.out + (p2.out - p1.out) * (in - p1.in) / (p2.in - p1.in)
rounded half away from zero; the fan-curve evaluator instead adds the
interpolation increment with its division truncated toward zero (Rust
integer division) and clamps the result into 0..=100. -/
theorem C7_interpolation_amended :
    (∀ (pre post : List FanCurvePoint) (p1 p2 : FanCurvePoint) (t : Int),
      List.Pairwise (fun a b => a.temp_c ≤ b.temp_c) (pre ++ p1 :: p2 :: post) →
      p1.temp_c < t → t < p2.temp_c →
      FanCurve.calculate_speed ⟨pre ++ p1 :: p2 :: post⟩ t =
        (min (max ((p1.speed_percent : Int) +
          truncTowardZero ((((p2.speed_percent : Int) - (p1.speed_percent : Int)) : ℚ) *
            (((t : ℚ) - (p1.temp_c : ℚ)) / ((p2.temp_c : ℚ) - (p1.temp_c : ℚ))))) 0)
          100).toNat) ∧
    (∀ (pre post : List (ℚ × Int)) (q1 q2 : ℚ × Int) (load : ℚ),
      List.Pairwise (fun a b => a.1 ≤ b.1) (pre ++ q1 :: q2 :: post) →
      0 ≤ load → load ≤ 100 → q1.1 < load → load < q2.1 →
      custom_interpolate (pre ++ q1 :: q2 :: post) load =
        roundAwayFromZero ((q1.2 : ℚ) + ((q2.2 : ℚ) - (q1.2 : ℚ)) *
          ((load - q1.1) / (q2.1 - q1.1)))) := by
  constructor
  · intro pre post p1 p2 t hsorted h1 h2
    rw [calculate_speed_bracket pre post p1 p2 t hsorted h1 h2]
    exact interpolate_eq_trunc t p1 p2 (by omega)
  · intro pre post q1 q2 load hsorted h0 h100 hq1 hq2
    exact custom_interpolate_bracket pre post q1 q2 load hsorted h0 h100 hq1 hq2

/-- Witness for C7 (amended): concrete mid-segment evaluations on both
evaluators. -/
theorem C7_interpolation_amended_witness :
    FanCurve.calculate_speed ⟨[⟨40, 0⟩, ⟨50, 3⟩]⟩ 45 =
      (min (max (((0 : Nat) : Int) +
        truncTowardZero (((((3 : Nat) : Int) - ((0 : Nat) : Int)) : ℚ) *
          ((((45 : Int) : ℚ) - ((40 : Int) : ℚ)) / (((50 : Int) : ℚ) - ((40 : Int) : ℚ))))) 0)
        100).toNat ∧
    custom_interpolate [((0 : ℚ), (-30 : Int)), (100, -10)] 50 =
      roundAwayFromZero (((-30 : Int) : ℚ) + (((-10 : Int) : ℚ) - ((-30 : Int) : ℚ)) *
        ((50 - (0 : ℚ)) / ((100 : ℚ) - (0 : ℚ)))) := by
  constructor
  · exact C7_interpolation_amended.1 [] [] ⟨40, 0⟩ ⟨50, 3⟩ 45 (by decide) (by decide) (by decide)
  · exact C7_interpolation_amended.2 [] [] (0, -30) (100, -10) 50
      (by norm_num [List.pairwise_cons]) (by norm_num) (by norm_num) (by norm_num) (by norm_num)

end DeckTune
